import Mathlib

/-!
Shallow embedding of the trading bot in src/main.go.

Strings are modelled at the byte level (Go strings are byte sequences):
a Go string is a `List Nat` of its UTF-8 bytes.  Lean `String` inputs are
converted with `utf8Bytes`.  Prices (Go float64) are modelled as exact
rationals `Rat`; the claims under study concern the formulas and control
flow, not floating-point rounding.
-/

/-- UTF-8 encoding of one character, as byte values. -/
def charUtf8 (c : Char) : List Nat :=
  let n := c.toNat
  if n < 128 then [n]
  else if n < 2048 then [192 + n / 64, 128 + n % 64]
  else if n < 65536 then [224 + n / 4096, 128 + (n / 64) % 64, 128 + n % 64]
  else [240 + n / 262144, 128 + (n / 4096) % 64, 128 + (n / 64) % 64, 128 + n % 64]

/-- The UTF-8 bytes of a string (the byte sequence a Go string holds). -/
def utf8Bytes (s : String) : List Nat :=
  s.data.flatMap charUtf8

/-- Bytes left unescaped by Go's url.QueryEscape: ASCII letters, digits,
and the marks minus, underscore, dot, tilde. -/
def isUnreservedByte (c : Nat) : Bool :=
  (65 ≤ c && c ≤ 90) || (97 ≤ c && c ≤ 122) || (48 ≤ c && c ≤ 57) ||
    c == 45 || c == 95 || c == 46 || c == 126

/-- Uppercase hexadecimal digit byte, as produced by Go's percent-escaping. -/
def hexUpperDigit (n : Nat) : Nat :=
  if n < 10 then 48 + n else 55 + n

/-- Embedding of Go's url.QueryEscape over the bytes of the input: unreserved
bytes pass through, a space becomes the plus byte 43, every other byte becomes
a percent escape with uppercase hex digits. -/
def queryEscape (s : List Nat) : List Nat :=
  (s.map (fun c =>
    if isUnreservedByte c then [c]
    else if c == 32 then [43]
    else [37, hexUpperDigit (c / 16), hexUpperDigit (c % 16)])).flatten

/-- Embedding of strings.ReplaceAll(s, plus, percent-two-zero): every plus
byte 43 is replaced by the three bytes of the escape for space. -/
def replacePlus (s : List Nat) : List Nat :=
  (s.map (fun c => if c == 43 then [37, 50, 48] else [c])).flatten

/-- Embedding of urlEncode in src/main.go line 21: QueryEscape then
replace plus with the percent escape for space. -/
def urlEncode (s : List Nat) : List Nat :=
  replacePlus (queryEscape s)

/-- Per-byte encoding rule as the spec words it: unreserved bytes pass
through, a space encodes as the three bytes of percent-two-zero (never as
plus), every other byte as a percent escape. -/
def specEncodeByte (c : Nat) : List Nat :=
  if isUnreservedByte c then [c]
  else if c == 32 then [37, 50, 48]
  else [37, hexUpperDigit (c / 16), hexUpperDigit (c % 16)]

/-- The spec-worded value encoding, applied byte by byte. -/
def specEncode (s : List Nat) : List Nat :=
  (s.map specEncodeByte).flatten

/-- Go string comparison (used by sort.Strings): strict lexicographic order
on the byte sequences. -/
def lexLt : List Nat → List Nat → Bool
  | _, [] => false
  | [], _ :: _ => true
  | a :: as, b :: bs =>
    if a < b then true
    else if b < a then false
    else lexLt as bs

/-- Non-strict key order used to model sort.Strings ascending order. -/
def keyLe (a b : List Nat) : Prop := lexLt b a = false

instance keyLe.decRel : DecidableRel keyLe := fun a b => by
  unfold keyLe; infer_instance

/-- Model of sort.Strings: the keys sorted ascending by byte order. -/
def sortKeys (ks : List (List Nat)) : List (List Nat) :=
  List.insertionSort keyLe ks

/-- Value associated to a key in the parameter map, modelled as first match
in the association list (a Go map has at most one entry per key). -/
def lookupValue (params : List (List Nat × List Nat)) (k : List Nat) : List Nat :=
  match params.find? (fun kv => kv.1 == k) with
  | some kv => kv.2
  | none => []

/-- One key=urlEncode(value) segment, as written by line 35 of src/main.go. -/
def paramSegment (params : List (List Nat × List Nat)) (k : List Nat) : List Nat :=
  k ++ [61] ++ urlEncode (lookupValue params k)

/-- Embedding of strings.TrimSuffix(s, ampersand): drop a final ampersand
byte 38 when present. -/
def trimSuffixAmp (s : List Nat) : List Nat :=
  if s.getLast? = some 38 then s.dropLast else s

/-- Embedding of getRequestParamString in src/main.go lines 26-39: sort the
keys, write key=encodedValue followed by an ampersand for each, then trim
the trailing ampersand. -/
def getRequestParamString (params : List (List Nat × List Nat)) : List Nat :=
  trimSuffixAmp
    (((sortKeys (params.map Prod.fst)).map
        (fun k => paramSegment params k ++ [38])).flatten)

/-- Spec-worded join: segments joined by an ampersand with no trailing
separator. -/
def joinAmp : List (List Nat) → List Nat
  | [] => []
  | [x] => x
  | x :: y :: xs => x ++ 38 :: joinAmp (y :: xs)

/-!
SHA-256 and HMAC, the algorithms behind crypto/sha256 and crypto/hmac as
called on lines 45-47 of src/main.go.  Words are `Nat` reduced modulo 2^32.
-/

/-- Right rotation of a 32-bit word held in a Nat. -/
def rotr32 (n w : Nat) : Nat :=
  ((w >>> n) ||| (w <<< (32 - n))) % 4294967296

/-- SHA-256 choice function on 32-bit words. -/
def sha2Ch (x y z : Nat) : Nat :=
  (x &&& y) ^^^ ((x ^^^ 4294967295) &&& z)

/-- SHA-256 majority function. -/
def sha2Maj (x y z : Nat) : Nat :=
  (x &&& y) ^^^ (x &&& z) ^^^ (y &&& z)

/-- SHA-256 big sigma 0. -/
def bigSigma0 (x : Nat) : Nat := rotr32 2 x ^^^ rotr32 13 x ^^^ rotr32 22 x

/-- SHA-256 big sigma 1. -/
def bigSigma1 (x : Nat) : Nat := rotr32 6 x ^^^ rotr32 11 x ^^^ rotr32 25 x

/-- SHA-256 small sigma 0. -/
def smallSigma0 (x : Nat) : Nat := rotr32 7 x ^^^ rotr32 18 x ^^^ (x >>> 3)

/-- SHA-256 small sigma 1. -/
def smallSigma1 (x : Nat) : Nat := rotr32 17 x ^^^ rotr32 19 x ^^^ (x >>> 10)

/-- The 64 SHA-256 round constants, written in decimal. -/
def sha2K : List Nat :=
  [1116352408, 1899447441, 3049323471, 3921009573, 961987163,
   1508970993, 2453635748, 2870763221, 3624381080, 310598401,
   607225278, 1426881987, 1925078388, 2162078206, 2614888103,
   3248222580, 3835390401, 4022224774, 264347078, 604807628,
   770255983, 1249150122, 1555081692, 1996064986, 2554220882,
   2821834349, 2952996808, 3210313671, 3336571891, 3584528711,
   113926993, 338241895, 666307205, 773529912, 1294757372,
   1396182291, 1695183700, 1986661051, 2177026350, 2456956037,
   2730485921, 2820302411, 3259730800, 3345764771, 3516065817,
   3600352804, 4094571909, 275423344, 430227734, 506948616,
   659060556, 883997877, 958139571, 1322822218, 1537002063,
   1747873779, 1955562222, 2024104815, 2227730452, 2361852424,
   2428436474, 2756734187, 3204031479, 3329325298]

/-- Working state of the compression function: eight 32-bit words. -/
structure Hash8 where
  a : Nat
  b : Nat
  c : Nat
  d : Nat
  e : Nat
  f : Nat
  g : Nat
  h : Nat
deriving Repr, DecidableEq

/-- SHA-256 initial hash value, written in decimal. -/
def sha2InitH : Hash8 :=
  ⟨1779033703, 3144134277, 1013904242, 2773480762,
   1359893119, 2600822924, 528734635, 1541459225⟩

/-- Big-endian bytes of a 64-bit length value. -/
def be64 (n : Nat) : List Nat :=
  [n / 72057594037927936 % 256, n / 281474976710656 % 256,
   n / 1099511627776 % 256, n / 4294967296 % 256,
   n / 16777216 % 256, n / 65536 % 256, n / 256 % 256, n % 256]

/-- Big-endian bytes of one 32-bit word. -/
def wordBytes (w : Nat) : List Nat :=
  [w / 16777216 % 256, w / 65536 % 256, w / 256 % 256, w % 256]

/-- SHA-256 padding: append the 0x80 byte, zeros to 56 mod 64, then the
message bit length as 8 big-endian bytes. -/
def padMessage (msg : List Nat) : List Nat :=
  let L := msg.length
  let k := (64 - (L + 9) % 64) % 64
  msg ++ [128] ++ List.replicate k 0 ++ be64 (L * 8)

/-- Split a byte list into 64-byte blocks, with structural fuel (the fuel
never runs out when it starts at the length of the list). -/
def toBlocksFuel : Nat → List Nat → List (List Nat)
  | 0, _ => []
  | _, [] => []
  | fuel + 1, a :: l => ((a :: l).take 64) :: toBlocksFuel fuel ((a :: l).drop 64)

/-- Split a byte list into 64-byte blocks. -/
def toBlocks (l : List Nat) : List (List Nat) :=
  toBlocksFuel l.length l

/-- Big-endian 32-bit words from bytes. -/
def toWords : List Nat → List Nat
  | b0 :: b1 :: b2 :: b3 :: rest =>
    (b0 * 16777216 + b1 * 65536 + b2 * 256 + b3) :: toWords rest
  | _ => []

/-- Extend the 16 block words by n more schedule words. -/
def extendSchedule : List Nat → Nat → List Nat
  | ws, 0 => ws
  | ws, n + 1 =>
    let t := ws.length
    let w := (smallSigma1 (ws.getD (t - 2) 0) + ws.getD (t - 7) 0 +
              smallSigma0 (ws.getD (t - 15) 0) + ws.getD (t - 16) 0) % 4294967296
    extendSchedule (ws ++ [w]) n

/-- One SHA-256 round, consuming a constant-schedule pair. -/
def sha2Round (s : Hash8) (kw : Nat × Nat) : Hash8 :=
  let t1 := (s.h + bigSigma1 s.e + sha2Ch s.e s.f s.g + kw.1 + kw.2) % 4294967296
  let t2 := (bigSigma0 s.a + sha2Maj s.a s.b s.c) % 4294967296
  ⟨(t1 + t2) % 4294967296, s.a, s.b, s.c, (s.d + t1) % 4294967296, s.e, s.f, s.g⟩

/-- Compress one 64-byte block into the running hash. -/
def compressBlock (H : Hash8) (block : List Nat) : Hash8 :=
  let w := extendSchedule (toWords block) 48
  let s := (sha2K.zip w).foldl sha2Round H
  ⟨(H.a + s.a) % 4294967296, (H.b + s.b) % 4294967296,
   (H.c + s.c) % 4294967296, (H.d + s.d) % 4294967296,
   (H.e + s.e) % 4294967296, (H.f + s.f) % 4294967296,
   (H.g + s.g) % 4294967296, (H.h + s.h) % 4294967296⟩

/-- Big-endian byte serialization of the final hash state. -/
def hashBytes (s : Hash8) : List Nat :=
  wordBytes s.a ++ wordBytes s.b ++ wordBytes s.c ++ wordBytes s.d ++
  wordBytes s.e ++ wordBytes s.f ++ wordBytes s.g ++ wordBytes s.h

/-- SHA-256 of a byte list. -/
def sha256 (msg : List Nat) : List Nat :=
  hashBytes ((toBlocks (padMessage msg)).foldl compressBlock sha2InitH)

/-- HMAC-SHA256, as crypto/hmac builds it with a 64-byte block size: hash
an over-long key, zero-pad, and run the nested inner/outer hashes. -/
def hmacSha256 (key msg : List Nat) : List Nat :=
  let k0 := if 64 < key.length then sha256 key else key
  let kp := k0 ++ List.replicate (64 - k0.length) 0
  let ipad := kp.map (fun b => b ^^^ 54)
  let opad := kp.map (fun b => b ^^^ 92)
  sha256 (opad ++ sha256 (ipad ++ msg))

/-- Lowercase hexadecimal digit character, as encoding/hex produces. -/
def hexLowerChar (n : Nat) : Char :=
  Char.ofNat (if n < 10 then 48 + n else 87 + n)

/-- Embedding of hex.EncodeToString: two lowercase hex digits per byte. -/
def hexEncode (digest : List Nat) : String :=
  String.mk (digest.flatMap (fun b => [hexLowerChar (b / 16), hexLowerChar (b % 16)]))

/-- Embedding of sign in src/main.go lines 42-48: HMAC-SHA256 keyed with the
secret key over the concatenation accessKey, reqTime, paramStr, hex-encoded. -/
def sign (accessKey secretKey reqTime paramStr : String) : String :=
  hexEncode (hmacSha256 (utf8Bytes secretKey) (utf8Bytes (accessKey ++ reqTime ++ paramStr)))

/-!
Wall-clock time and timestamps.  A Go time.Time reading is a whole-second
count since the Unix epoch plus a sub-second nanosecond part.
-/

/-- One wall-clock reading: seconds since the Unix epoch and the nanosecond
remainder within that second. -/
structure GoTime where
  sec : Int
  nsec : Nat
deriving Repr, DecidableEq

/-- Embedding of the timestamp expression on lines 64 and 120 of
src/main.go: strconv.FormatInt(time.Now().Unix()*1000, 10). -/
def requestTimestamp (t : GoTime) : String :=
  toString (t.sec * 1000)

/-- Milliseconds since the Unix epoch of a wall-clock reading. -/
def unixMilli (t : GoTime) : Int :=
  t.sec * 1000 + (t.nsec / 1000000 : Nat)

/-- The timestamp as the spec words it: the current wall-clock time
expressed as milliseconds since the Unix epoch, base 10. -/
def requestTimestampSpec (t : GoTime) : String :=
  toString (unixMilli t)

/-!
Compare-and-report step, lines 100-111 of src/main.go.  float64 prices are
modelled as exact rationals.
-/

/-- The difference computed on line 102: fairPrice minus holdAvgPrice. -/
def reportedDifference (fair hold : Rat) : Rat :=
  fair - hold

/-- The percentage computed on line 103: difference divided by
holdAvgPrice, times 100, with no guard on the divisor. -/
def reportedPercent (fair hold : Rat) : Rat :=
  reportedDifference fair hold / hold * 100

/-- The data of one emitted comparison line. -/
structure OutputLine where
  symbol : String
  greaterName : String
  greaterValue : Rat
  smallerName : String
  smallerValue : Rat
  diffShown : Rat
  percentShown : Rat
deriving Repr, DecidableEq

/-- Embedding of lines 100-111: no line when the prices are equal;
otherwise the branch on the sign of the difference picks which price is
named greater and negates the shown difference and percentage in the
lower branch. -/
def compareReport (symbol : String) (fair hold : Rat) : Option OutputLine :=
  if fair ≠ hold then
    let difference := reportedDifference fair hold
    let percentageDifference := reportedPercent fair hold
    if difference > 0 then
      some ⟨symbol, "FairPrice", fair, "HoldAvgPrice", hold, difference, percentageDifference⟩
    else
      some ⟨symbol, "HoldAvgPrice", hold, "FairPrice", fair, -difference, -percentageDifference⟩
  else
    none

/-!
Control flow of the two-stage workflow.  Each HTTP call site has four
failure points in source order (http.NewRequest, client.Do, body read,
json.Unmarshal); an outcome is one of those failures or a decoded value.
-/

/-- Outcome of one HTTP call attempt. -/
inductive CallOutcome (α : Type) where
  | createFail (msg : String)
  | sendFail (msg : String)
  | readFail (msg : String)
  | decodeFail (msg : String)
  | success (val : α)
deriving Repr, DecidableEq

/-- Whether the call decoded successfully. -/
def CallOutcome.isSuccess {α : Type} : CallOutcome α → Bool
  | .success _ => true
  | _ => false

/-- One console event: a diagnostic line or a comparison report line. -/
inductive Event where
  | diag (msg : String)
  | report (line : OutputLine)
deriving Repr, DecidableEq

/-- One open position: symbol and hold average price. -/
structure Position where
  symbol : String
  holdAvgPrice : Rat
deriving Repr, DecidableEq

/-- Embedding of queryFairPriceForSymbol, lines 63-112 of src/main.go: each
failure point prints its own diagnostic and returns; on success the
comparison step runs and prints at most one line. -/
def queryFairPriceForSymbol (outcome : CallOutcome Rat) (symbol : String)
    (holdAvgPrice : Rat) : List Event :=
  match outcome with
  | .createFail e => [.diag ("Error creating request for symbol " ++ symbol ++ ": " ++ e)]
  | .sendFail e => [.diag ("Error sending request for symbol " ++ symbol ++ ": " ++ e)]
  | .readFail e => [.diag ("Error reading response body for symbol " ++ symbol ++ ": " ++ e)]
  | .decodeFail e => [.diag ("Error decoding fair price response for " ++ symbol ++ ": " ++ e)]
  | .success fair => (compareReport symbol fair holdAvgPrice).toList.map .report

/-- The per-position loop of main (lines 160-162): process the positions in
order, the call for the i-th remaining position drawing outcome i of the
environment. -/
def runStage2 (fair : Nat → CallOutcome Rat) (start : Nat) : List Position → List Event
  | [] => []
  | p :: ps =>
    queryFairPriceForSymbol (fair start) p.symbol p.holdAvgPrice ++
      runStage2 fair (start + 1) ps

/-- Embedding of main, lines 114-163: a stage-1 failure prints one
diagnostic and ends the run; on success the loop over positions runs with
the per-symbol outcomes of the environment. -/
def runMain (stage1 : CallOutcome (List Position))
    (fair : Nat → CallOutcome Rat) : List Event :=
  match stage1 with
  | .createFail e => [.diag ("Error creating request: " ++ e)]
  | .sendFail e => [.diag ("Error sending request: " ++ e)]
  | .readFail e => [.diag ("Error reading response body: " ++ e)]
  | .decodeFail e => [.diag ("Error decoding response JSON: " ++ e)]
  | .success ps => runStage2 fair 0 ps

/-!
Outgoing requests and their headers.
-/

/-- An outgoing HTTP request: method, URL and the header list in the order
the code adds them. -/
structure Request where
  method : String
  url : String
  headers : List (String × String)
deriving Repr, DecidableEq

/-- The fixed API host, line 124 of src/main.go. -/
def baseURL : String := "https://contract.mexc.com"

/-- A byte list rendered back as a string (used only for the canonical
parameter string, whose bytes are ASCII). -/
def bytesAsString (l : List Nat) : String :=
  String.mk (l.map Char.ofNat)

/-- The open-positions request built by main, lines 118-139: canonical
string of the empty parameter map, one timestamp reading used both in the
Request-Time header and in the signature. -/
def openPositionsRequest (accessKey secretKey : String) (t : GoTime) : Request :=
  let paramStr := bytesAsString (getRequestParamString [])
  let reqTime := requestTimestamp t
  let signature := sign accessKey secretKey reqTime paramStr
  { method := "GET"
    url := baseURL ++ "/api/v1/private/position/open_positions"
    headers := [("ApiKey", accessKey), ("Request-Time", reqTime),
                ("Signature", signature), ("Content-Type", "application/json")] }

/-- The fair-price request built by queryFairPriceForSymbol, lines 64-79:
empty canonical string literal, one timestamp reading used both in the
Request-Time header and in the signature. -/
def fairPriceRequest (accessKey secretKey symbol : String) (t : GoTime) : Request :=
  let reqTime := requestTimestamp t
  let signature := sign accessKey secretKey reqTime ""
  { method := "GET"
    url := baseURL ++ "/api/v1/contract/fair_price/" ++ symbol
    headers := [("ApiKey", accessKey), ("Request-Time", reqTime),
                ("Signature", signature), ("Content-Type", "application/json")] }

/-- Header lookup by name, first match. -/
def headerValue (r : Request) (name : String) : Option String :=
  match r.headers.find? (fun kv => kv.1 == name) with
  | some kv => some kv.2
  | none => none

/-- The fair-price requests of one run, each drawing its own clock reading:
the request for the i-th listed symbol reads the clock at instant start+i. -/
def fairPriceTrace (accessKey secretKey : String) (clock : Nat → GoTime)
    (start : Nat) : List String → List Request
  | [] => []
  | s :: ss =>
    fairPriceRequest accessKey secretKey s (clock start) ::
      fairPriceTrace accessKey secretKey clock (start + 1) ss

/-- All requests of one run in order: the open-positions request with clock
reading 0, then one fair-price request per symbol with clock readings
1, 2, and so on, mirroring the separate time.Now() calls on lines 120 and
64 of src/main.go. -/
def requestTrace (accessKey secretKey : String) (clock : Nat → GoTime)
    (symbols : List String) : List Request :=
  openPositionsRequest accessKey secretKey (clock 0) ::
    fairPriceTrace accessKey secretKey clock 1 symbols

/-!
Lemmas about the value encoding.
-/

theorem replacePlus_append (a b : List Nat) :
    replacePlus (a ++ b) = replacePlus a ++ replacePlus b := by
  simp [replacePlus]

theorem queryEscape_cons (c : Nat) (s : List Nat) :
    queryEscape (c :: s) =
      (if isUnreservedByte c then [c]
       else if c == 32 then [43]
       else [37, hexUpperDigit (c / 16), hexUpperDigit (c % 16)]) ++ queryEscape s := by
  simp [queryEscape]

theorem isUnreservedByte_ne_plus {c : Nat} (h : isUnreservedByte c = true) : c ≠ 43 := by
  simp [isUnreservedByte] at h
  omega

theorem hexUpperDigit_ne_plus (n : Nat) : hexUpperDigit n ≠ 43 := by
  unfold hexUpperDigit
  split <;> omega

theorem urlEncode_eq_specEncode (s : List Nat) : urlEncode s = specEncode s := by
  induction s with
  | nil => rfl
  | cons c s ih =>
    have hstep : urlEncode (c :: s) =
        replacePlus
          (if isUnreservedByte c then [c]
           else if c == 32 then [43]
           else [37, hexUpperDigit (c / 16), hexUpperDigit (c % 16)]) ++ urlEncode s := by
      rw [urlEncode, queryEscape_cons, replacePlus_append]
      rfl
    have hspec : specEncode (c :: s) = specEncodeByte c ++ specEncode s := by
      simp [specEncode]
    rw [hstep, ih, hspec]
    congr 1
    by_cases hu : isUnreservedByte c
    · have hc : c ≠ 43 := isUnreservedByte_ne_plus hu
      simp [hu, replacePlus, specEncodeByte, hc]
    · by_cases hs : c = 32
      · subst hs
        simp [hu, replacePlus, specEncodeByte]
      · have h1 : (37 : Nat) ≠ 43 := by omega
        simp [hu, hs, replacePlus, specEncodeByte, h1,
          hexUpperDigit_ne_plus (c / 16), hexUpperDigit_ne_plus (c % 16)]

theorem plus_not_mem_specEncodeByte (c : Nat) : 43 ∉ specEncodeByte c := by
  unfold specEncodeByte
  split
  · next hu =>
    simp
    exact fun h => isUnreservedByte_ne_plus hu h.symm
  · split
    · simp
    · intro hmem
      rcases List.mem_cons.mp hmem with h | hmem
      · omega
      rcases List.mem_cons.mp hmem with h | hmem
      · exact hexUpperDigit_ne_plus (c / 16) h.symm
      rcases List.mem_cons.mp hmem with h | hmem
      · exact hexUpperDigit_ne_plus (c % 16) h.symm
      · simp at hmem

theorem plus_not_mem_urlEncode (s : List Nat) : 43 ∉ urlEncode s := by
  rw [urlEncode_eq_specEncode]
  intro hmem
  rw [specEncode, List.mem_flatten] at hmem
  obtain ⟨l, hl, hmem⟩ := hmem
  rw [List.mem_map] at hl
  obtain ⟨c, _, rfl⟩ := hl
  exact plus_not_mem_specEncodeByte c hmem

/-- Claim C3: for every parameter value, canonicalization percent-encodes the
value byte by byte with space encoded as the percent escape for space (never
as a plus), unreserved bytes passing through, and every other byte as a
standard percent escape; the plus byte never appears in an encoded value; and
canonicalizing the map with key a and value x-space-y yields exactly the
bytes of a=x%20y. -/
theorem claim_C3 (v : List Nat) :
    urlEncode v = (v.map specEncodeByte).flatten ∧
    urlEncode [32] = [37, 50, 48] ∧
    43 ∉ urlEncode v ∧
    getRequestParamString [(utf8Bytes "a", utf8Bytes "x y")] = utf8Bytes "a=x%20y" := by
  refine ⟨urlEncode_eq_specEncode v, by decide, plus_not_mem_urlEncode v, by decide⟩

/-!
The byte-lexicographic order is a linear order; sort.Strings output is the
unique ascending arrangement of distinct keys.
-/

theorem lexLt_irrefl (a : List Nat) : lexLt a a = false := by
  induction a with
  | nil => rfl
  | cons x xs ih => simp [lexLt, ih]

theorem lexLt_asymm : ∀ a b : List Nat, lexLt a b = true → lexLt b a = false
  | [], [], h => by simp [lexLt] at h
  | [], _ :: _, _ => rfl
  | _ :: _, [], h => by simp [lexLt] at h
  | x :: xs, y :: ys, h => by
    simp only [lexLt] at h ⊢
    rcases Nat.lt_trichotomy x y with hxy | hxy | hxy
    · simp [hxy, Nat.not_lt_of_lt hxy]
    · subst hxy
      simp only [Nat.lt_irrefl, if_false] at h ⊢
      exact lexLt_asymm xs ys h
    · simp [hxy, Nat.not_lt_of_lt hxy] at h

theorem lexLt_trans : ∀ a b c : List Nat, lexLt a b = true → lexLt b c = true →
    lexLt a c = true
  | _, [], _, h, _ => by simp [lexLt] at h
  | _, _, [], _, h => by simp [lexLt] at h
  | [], _ :: _, _ :: _, _, _ => rfl
  | x :: xs, y :: ys, z :: zs, h1, h2 => by
    simp only [lexLt] at h1 h2 ⊢
    rcases Nat.lt_trichotomy x y with hxy | hxy | hxy
    · rcases Nat.lt_trichotomy y z with hyz | hyz | hyz
      · have : x < z := Nat.lt_trans hxy hyz
        simp [this]
      · subst hyz
        simp [hxy]
      · simp [hyz, Nat.not_lt_of_lt hyz] at h2
    · subst hxy
      simp only [Nat.lt_irrefl, if_false] at h1
      rcases Nat.lt_trichotomy x z with hyz | hyz | hyz
      · simp [hyz]
      · subst hyz
        simp only [Nat.lt_irrefl, if_false] at h2 ⊢
        exact lexLt_trans xs ys zs h1 h2
      · simp [hyz, Nat.not_lt_of_lt hyz] at h2
    · simp [hxy, Nat.not_lt_of_lt hxy] at h1

theorem lexLt_trichotomy : ∀ a b : List Nat,
    lexLt a b = true ∨ lexLt b a = true ∨ a = b
  | [], [] => Or.inr (Or.inr rfl)
  | [], _ :: _ => Or.inl rfl
  | _ :: _, [] => Or.inr (Or.inl rfl)
  | x :: xs, y :: ys => by
    rcases Nat.lt_trichotomy x y with hxy | hxy | hxy
    · exact Or.inl (by simp [lexLt, hxy])
    · subst hxy
      rcases lexLt_trichotomy xs ys with h | h | h
      · exact Or.inl (by simp [lexLt, h])
      · exact Or.inr (Or.inl (by simp [lexLt, h]))
      · exact Or.inr (Or.inr (by rw [h]))
    · exact Or.inr (Or.inl (by simp [lexLt, hxy]))

instance keyLe.isTotal : IsTotal (List Nat) keyLe := by
  constructor
  intro a b
  unfold keyLe
  cases hab : lexLt b a
  · exact Or.inl rfl
  · exact Or.inr (lexLt_asymm b a hab)

instance keyLe.isTrans : IsTrans (List Nat) keyLe := by
  constructor
  intro a b c hab hbc
  unfold keyLe at hab hbc ⊢
  cases hca : lexLt c a
  · rfl
  · exfalso
    rcases lexLt_trichotomy a b with h | h | h
    · rw [lexLt_trans c a b hca h] at hbc
      simp at hbc
    · rw [h] at hab
      simp at hab
    · subst h
      rw [hca] at hbc
      simp at hbc

instance keyLe.isAntisymm : IsAntisymm (List Nat) keyLe := by
  constructor
  intro a b hab hba
  unfold keyLe at hab hba
  rcases lexLt_trichotomy a b with h | h | h
  · rw [h] at hba
    simp at hba
  · rw [h] at hab
    simp at hab
  · exact h

theorem trimSuffixAmp_append (a m : List Nat) (hm : m ≠ []) :
    trimSuffixAmp (a ++ m) = a ++ trimSuffixAmp m := by
  unfold trimSuffixAmp
  have h1 : (a ++ m).getLast? = m.getLast? := by
    rw [List.getLast?_append]
    cases hm2 : m.getLast? with
    | none => exact absurd (List.getLast?_eq_none_iff.mp hm2) hm
    | some x => rfl
  rw [h1]
  split
  · exact List.dropLast_append_of_ne_nil a hm
  · rfl

theorem trimSuffixAmp_flatten_eq_joinAmp : ∀ l : List (List Nat),
    trimSuffixAmp ((l.map (fun x => x ++ [38])).flatten) = joinAmp l
  | [] => by simp [trimSuffixAmp, joinAmp]
  | [x] => by
    simp only [List.map_cons, List.map_nil, List.flatten_cons, List.flatten_nil,
      List.append_nil, joinAmp]
    unfold trimSuffixAmp
    rw [List.getLast?_concat]
    simp
  | x :: y :: xs => by
    have hne : (((y :: xs).map (fun x => x ++ [38])).flatten) ≠ [] := by
      simp
    calc trimSuffixAmp (((x :: y :: xs).map (fun x => x ++ [38])).flatten)
        = trimSuffixAmp ((x ++ [38]) ++ ((y :: xs).map (fun x => x ++ [38])).flatten) := by
          simp
      _ = (x ++ [38]) ++ trimSuffixAmp (((y :: xs).map (fun x => x ++ [38])).flatten) :=
          trimSuffixAmp_append _ _ hne
      _ = (x ++ [38]) ++ joinAmp (y :: xs) := by
          rw [trimSuffixAmp_flatten_eq_joinAmp (y :: xs)]
      _ = joinAmp (x :: y :: xs) := by
          simp [joinAmp]

theorem find_eq_of_perm {l1 l2 : List (List Nat × List Nat)} (p : l1.Perm l2)
    (nd : (l1.map Prod.fst).Nodup) (k : List Nat) :
    l1.find? (fun kv => kv.1 == k) = l2.find? (fun kv => kv.1 == k) := by
  induction p with
  | nil => rfl
  | cons x p ih =>
    simp only [List.find?_cons]
    split
    · rfl
    · simp only [List.map_cons, List.nodup_cons] at nd
      exact ih nd.2
  | swap x y l =>
    have hyx : y.1 ≠ x.1 := by
      simp only [List.map_cons, List.nodup_cons, List.mem_cons] at nd
      exact fun h => nd.1 (Or.inl h)
    by_cases hy : (y.1 == k) = true
    · by_cases hx : (x.1 == k) = true
      · rw [beq_iff_eq] at hy hx
        exact absurd (hy.trans hx.symm) hyx
      · rw [Bool.not_eq_true] at hx
        simp only [List.find?_cons, hy, hx]
    · rw [Bool.not_eq_true] at hy
      by_cases hx : (x.1 == k) = true
      · simp only [List.find?_cons, hy, hx]
      · rw [Bool.not_eq_true] at hx
        simp only [List.find?_cons, hy, hx]
  | trans p1 p2 ih1 ih2 =>
    exact (ih1 nd).trans (ih2 ((p1.map Prod.fst).nodup_iff.mp nd))

/-- Claim C2: for every parameter mapping (distinct keys), canonicalization
emits the key=value segments of exactly the mapping keys, joined by an
ampersand with no trailing separator, with the keys in strictly ascending
lexicographic byte order; the empty mapping yields the empty string; and the
output is independent of the iteration order of the map. -/
theorem claim_C2 (params params2 : List (List Nat × List Nat))
    (nd : (params.map Prod.fst).Nodup) (hperm : params2.Perm params) :
    getRequestParamString params =
      joinAmp ((sortKeys (params.map Prod.fst)).map (paramSegment params)) ∧
    List.Pairwise (fun a b => lexLt a b = true) (sortKeys (params.map Prod.fst)) ∧
    (sortKeys (params.map Prod.fst)).Perm (params.map Prod.fst) ∧
    getRequestParamString [] = [] ∧
    getRequestParamString params2 = getRequestParamString params := by
  have hsorted : List.Sorted keyLe (sortKeys (params.map Prod.fst)) :=
    List.sorted_insertionSort keyLe _
  have hperm0 : (sortKeys (params.map Prod.fst)).Perm (params.map Prod.fst) :=
    List.perm_insertionSort keyLe _
  refine ⟨?_, ?_, hperm0, by decide, ?_⟩
  · unfold getRequestParamString
    rw [show ((sortKeys (params.map Prod.fst)).map
          (fun k => paramSegment params k ++ [38]))
        = (((sortKeys (params.map Prod.fst)).map (paramSegment params)).map
            (fun x => x ++ [38])) by rw [List.map_map]; rfl]
    exact trimSuffixAmp_flatten_eq_joinAmp _
  · have hnody : (sortKeys (params.map Prod.fst)).Nodup := hperm0.symm.nodup nd
    refine (hsorted.and hnody).imp ?_
    intro a b hab
    rcases lexLt_trichotomy a b with h | h | h
    · exact h
    · unfold keyLe at hab
      rw [h] at hab
      simp at hab
    · exact absurd h hab.2
  · have ndmap2 : (params2.map Prod.fst).Nodup :=
      ((hperm.map Prod.fst).nodup_iff).mpr nd
    have hkeysperm : (params2.map Prod.fst).Perm (params.map Prod.fst) :=
      hperm.map Prod.fst
    have hsorted2 : List.Sorted keyLe (sortKeys (params2.map Prod.fst)) :=
      List.sorted_insertionSort keyLe _
    have hpermsort : (sortKeys (params2.map Prod.fst)).Perm
        (sortKeys (params.map Prod.fst)) :=
      (List.perm_insertionSort keyLe _).trans
        (hkeysperm.trans (List.perm_insertionSort keyLe _).symm)
    have hsorteq : sortKeys (params2.map Prod.fst) = sortKeys (params.map Prod.fst) :=
      List.eq_of_perm_of_sorted hpermsort hsorted2 hsorted
    have hlookup : ∀ k, lookupValue params2 k = lookupValue params k := by
      intro k
      unfold lookupValue
      rw [find_eq_of_perm hperm ndmap2 k]
    have hseg : paramSegment params2 = paramSegment params := by
      funext k
      unfold paramSegment
      rw [hlookup k]
    unfold getRequestParamString
    rw [hsorteq, hseg]

theorem claim_C2_witness :
    getRequestParamString [(utf8Bytes "a", utf8Bytes "1"), (utf8Bytes "b", utf8Bytes "2")] =
      getRequestParamString [(utf8Bytes "b", utf8Bytes "2"), (utf8Bytes "a", utf8Bytes "1")] ∧
    getRequestParamString [] = [] :=
  have h := claim_C2 [(utf8Bytes "b", utf8Bytes "2"), (utf8Bytes "a", utf8Bytes "1")]
      [(utf8Bytes "a", utf8Bytes "1"), (utf8Bytes "b", utf8Bytes "2")] (by decide) (by decide)
  ⟨h.2.2.2.2, h.2.2.2.1⟩

/-!
Lemmas about the signature: shape of the digest and of its hex encoding.
-/

theorem utf8Bytes_append (a b : String) :
    utf8Bytes (a ++ b) = utf8Bytes a ++ utf8Bytes b := by
  simp [utf8Bytes]

theorem hashBytes_length (s : Hash8) : (hashBytes s).length = 32 := by
  simp [hashBytes, wordBytes]

theorem wordBytes_lt (w : Nat) : ∀ x ∈ wordBytes w, x < 256 := by
  intro x hx
  simp only [wordBytes, List.mem_cons, List.not_mem_nil, or_false] at hx
  rcases hx with h | h | h | h <;> subst h <;> omega

theorem hashBytes_lt (s : Hash8) : ∀ x ∈ hashBytes s, x < 256 := by
  intro x hx
  simp only [hashBytes, List.mem_append] at hx
  rcases hx with ((((((h | h) | h) | h) | h) | h) | h) | h <;> exact wordBytes_lt _ _ h

theorem sha256_length (m : List Nat) : (sha256 m).length = 32 :=
  hashBytes_length _

theorem sha256_lt (m : List Nat) : ∀ x ∈ sha256 m, x < 256 :=
  hashBytes_lt _

theorem hmacSha256_length (key msg : List Nat) : (hmacSha256 key msg).length = 32 := by
  unfold hmacSha256
  exact sha256_length _

theorem hmacSha256_lt (key msg : List Nat) : ∀ x ∈ hmacSha256 key msg, x < 256 := by
  unfold hmacSha256
  exact sha256_lt _

/-- A lowercase hexadecimal digit character: a decimal digit or one of the
letters a to f. -/
def isLowerHexChar (c : Char) : Bool :=
  (48 ≤ c.toNat && c.toNat ≤ 57) || (97 ≤ c.toNat && c.toNat ≤ 102)

theorem hexLowerChar_isLowerHex (n : Nat) (h : n < 16) :
    isLowerHexChar (hexLowerChar n) = true := by
  interval_cases n <;> decide

theorem hexEncode_length (l : List Nat) : (hexEncode l).length = 2 * l.length := by
  induction l with
  | nil => rfl
  | cons b l ih =>
    simp only [hexEncode, List.flatMap_cons] at ih ⊢
    simp only [String.length] at ih ⊢
    simp [ih]
    omega

theorem hexEncode_chars (l : List Nat) (hl : ∀ b ∈ l, b < 256) :
    ∀ c ∈ (hexEncode l).data, isLowerHexChar c = true := by
  intro c hc
  simp only [hexEncode] at hc
  rw [List.mem_flatMap] at hc
  obtain ⟨b, hb, hc⟩ := hc
  have hb256 : b < 256 := hl b hb
  rcases List.mem_cons.mp hc with h | hc
  · subst h
    exact hexLowerChar_isLowerHex _ (by omega)
  rcases List.mem_cons.mp hc with h | hc
  · subst h
    exact hexLowerChar_isLowerHex _ (by omega)
  · simp at hc

set_option maxRecDepth 10000 in
/-- FIPS 180-4 test vector: SHA-256 of the empty message. -/
theorem sha256_empty_vector :
    hexEncode (sha256 []) =
      "e3b0c44298fc1c149afbf4c8996fb92427ae41e4649b934ca495991b7852b855" := by
  decide

set_option maxRecDepth 10000 in
/-- FIPS 180-4 test vector: SHA-256 of the three bytes abc. -/
theorem sha256_abc_vector :
    hexEncode (sha256 (utf8Bytes "abc")) =
      "ba7816bf8f01cfea414140de5dae2223b00361a396177a9cb410ff61f20015ad" := by
  decide

set_option maxRecDepth 10000 in
/-- RFC 4231 test case 1: HMAC-SHA256 with a twenty-byte key of 0x0b over
the message Hi There. -/
theorem hmac_rfc4231_vector :
    hexEncode (hmacSha256 (List.replicate 20 11) (utf8Bytes "Hi There")) =
      "b0344c61d8db38535ca8afceaf0bf12b881dc200c9833da726e9376c2e32cff7" := by
  decide

set_option maxRecDepth 10000 in
/-- The signature of four empty inputs: HMAC-SHA256 with empty key over the
empty message, hex-encoded. -/
theorem sign_empty_vector :
    sign "" "" "" "" =
      "b613679a0814d9ec772f95d778c35fc5ff1697c493715653c6c712144292c5ad" := by
  decide

/-- Claim C1: sign returns the lowercase hexadecimal encoding (64 lowercase
hex characters) of the HMAC-SHA256 digest, keyed with the secret key, of the
separator-free concatenation of access key, request timestamp and canonical
parameter string; it is a pure function, so identical inputs yield identical
output. -/
theorem claim_C1 (a s t p a2 s2 t2 p2 : String)
    (ha : a2 = a) (hs : s2 = s) (ht : t2 = t) (hp : p2 = p) :
    sign a s t p =
      hexEncode (hmacSha256 (utf8Bytes s) (utf8Bytes a ++ utf8Bytes t ++ utf8Bytes p)) ∧
    (sign a s t p).length = 64 ∧
    (∀ c ∈ (sign a s t p).data, isLowerHexChar c = true) ∧
    sign a2 s2 t2 p2 = sign a s t p := by
  refine ⟨?_, ?_, ?_, by rw [ha, hs, ht, hp]⟩
  · unfold sign
    rw [utf8Bytes_append, utf8Bytes_append]
  · unfold sign
    rw [hexEncode_length, hmacSha256_length]
  · unfold sign
    exact hexEncode_chars _ (hmacSha256_lt _ _)

theorem claim_C1_witness :
    (sign "ak" "sk" "1000" "a=1").length = 64 ∧
    sign "ak" "sk" "1000" "a=1" = sign "ak" "sk" "1000" "a=1" :=
  have h := claim_C1 "ak" "sk" "1000" "a=1" "ak" "sk" "1000" "a=1" rfl rfl rfl rfl
  ⟨h.2.1, h.2.2.2⟩

/-- Claim C4 counterexample: at the wall-clock reading one second and a half
after the epoch, the code's timestamp is the string 1000 while the
milliseconds since the epoch are 1500, so the timestamp is not the current
time expressed as milliseconds since the epoch. -/
theorem claim_C4_counterexample :
    requestTimestamp ⟨1, 500000000⟩ = "1000" ∧
    unixMilli ⟨1, 500000000⟩ = 1500 ∧
    requestTimestampSpec ⟨1, 500000000⟩ = "1500" ∧
    requestTimestamp ⟨1, 500000000⟩ ≠ requestTimestampSpec ⟨1, 500000000⟩ := by
  refine ⟨by decide, by decide, by decide, by decide⟩

theorem fairPriceTrace_getElem (ak sk : String) (clock : Nat → GoTime) :
    ∀ (ss : List String) (start j : Nat), j < ss.length →
      (fairPriceTrace ak sk clock start ss)[j]? =
        some (fairPriceRequest ak sk (ss[j]?.getD "") (clock (start + j))) := by
  intro ss
  induction ss with
  | nil =>
    intro start j hj
    simp at hj
  | cons s ss ih =>
    intro start j hj
    cases j with
    | zero => simp [fairPriceTrace]
    | succ j =>
      simp only [fairPriceTrace, List.getElem?_cons_succ]
      rw [ih (start + 1) j (by simpa using hj)]
      have harith : start + 1 + j = start + (j + 1) := by omega
      rw [harith]

/-- Claim C4 amended: every outgoing request carries its own wall-clock
reading, and its timestamp string is the whole-second part of that reading
multiplied by 1000 (milliseconds since the epoch truncated to second
precision), base 10; the signature of the request is computed over that same
timestamp.  The i-th request of the run uses the i-th clock reading, so each
request gets its own timestamp and its own signature. -/
theorem claim_C4 (ak sk : String) (clock : Nat → GoTime) (symbols : List String)
    (i : Nat) (hi : i < 1 + symbols.length) :
    ∃ r, (requestTrace ak sk clock symbols)[i]? = some r ∧
      headerValue r "Request-Time" = some (toString ((clock i).sec * 1000)) ∧
      headerValue r "Signature" =
        some (sign ak sk (toString ((clock i).sec * 1000)) "") := by
  cases i with
  | zero =>
    refine ⟨openPositionsRequest ak sk (clock 0), by simp [requestTrace], rfl, ?_⟩
    have hempty : bytesAsString (getRequestParamString []) = "" := by decide
    simp only [headerValue, openPositionsRequest, hempty]
    rfl
  | succ j =>
    have hj : j < symbols.length := by
      simpa using Nat.lt_of_succ_lt_succ (by simpa [Nat.add_comm] using hi)
    refine ⟨fairPriceRequest ak sk (symbols[j]?.getD "") (clock (j + 1)), ?_, rfl, rfl⟩
    simp only [requestTrace, List.getElem?_cons_succ]
    rw [fairPriceTrace_getElem ak sk clock symbols 1 j hj]
    have harith : 1 + j = j + 1 := by omega
    rw [harith]

theorem claim_C4_witness :
    1 < 1 + (["X"] : List String).length ∧
    ∃ r, (requestTrace "a" "b" (fun _ => ⟨7, 0⟩) ["X"])[1]? = some r ∧
      headerValue r "Request-Time" = some (toString ((7 : Int) * 1000)) ∧
      headerValue r "Signature" = some (sign "a" "b" (toString ((7 : Int) * 1000)) "") :=
  ⟨by norm_num, claim_C4 "a" "b" (fun _ => ⟨7, 0⟩) ["X"] 1 (by norm_num)⟩

/-- Claim C5: a symbol whose fair price equals its hold average price exactly
produces no output line, and otherwise the reported quantities are computed
from the difference fairPrice minus holdAvgPrice and from that difference
divided by holdAvgPrice times 100, the emitted line showing one of those two
values or its negation. -/
theorem claim_C5 (s : String) (fair hold : Rat) :
    (compareReport s fair hold = none ↔ fair = hold) ∧
    reportedDifference fair hold = fair - hold ∧
    reportedPercent fair hold = (fair - hold) / hold * 100 ∧
    ∀ r, compareReport s fair hold = some r →
      (r.diffShown = reportedDifference fair hold ∨
        r.diffShown = -reportedDifference fair hold) ∧
      (r.percentShown = reportedPercent fair hold ∨
        r.percentShown = -reportedPercent fair hold) := by
  refine ⟨?_, rfl, rfl, ?_⟩
  · unfold compareReport
    by_cases h : fair = hold
    · simp [h]
    · simp only [h, ne_eq, not_false_iff, if_true]
      split <;> simp [h]
  · intro r hr
    unfold compareReport at hr
    by_cases h : fair = hold
    · simp [h] at hr
    · simp only [h, ne_eq, not_false_iff, if_true] at hr
      split at hr <;>
        (cases hr; exact ⟨by simp, by simp⟩)

theorem claim_C5_witness :
    compareReport "S" (1 : Rat) 1 = none ∧
    compareReport "S" (2 : Rat) 1 ≠ none :=
  ⟨(claim_C5 "S" 1 1).1.mpr rfl,
    fun h => absurd ((claim_C5 "S" 2 1).1.mp h) (by norm_num)⟩

/-- Claim C10: with holdAvgPrice zero and fairPrice nonzero the inequality
branch is taken, an output line is emitted, and the percentage is computed by
dividing by the zero holdAvgPrice with no guard (the rational embedding
collapses that division to zero). -/
theorem claim_C10 (s : String) :
    ((1 : Rat) ≠ 0) ∧
    compareReport s 1 0 =
      some ⟨s, "FairPrice", 1, "HoldAvgPrice", 0, 1, reportedPercent 1 0⟩ ∧
    reportedPercent 1 0 = (1 - 0) / 0 * 100 ∧
    ((1 : Rat) - 0) / 0 = 0 := by
  refine ⟨by norm_num, ?_, rfl, by norm_num⟩
  unfold compareReport
  rw [if_pos (by norm_num : (1 : Rat) ≠ 0)]
  rw [if_pos (by norm_num [reportedDifference] : reportedDifference (1 : Rat) 0 > 0)]
  have h1 : reportedDifference (1 : Rat) 0 = 1 := by norm_num [reportedDifference]
  rw [h1]

/-- Claim C6 counterexample: with fairPrice 0 and holdAvgPrice -1 the code
emits a line whose percentage value is -100, a negative number, so the
percentage is not always reported as a positive number. -/
theorem claim_C6_counterexample :
    compareReport "S" 0 (-1) =
      some { symbol := "S", greaterName := "FairPrice", greaterValue := 0,
             smallerName := "HoldAvgPrice", smallerValue := -1,
             diffShown := 1, percentShown := -100 } ∧
    ¬ (0 < (-100 : Rat)) := by
  constructor
  · unfold compareReport
    rw [if_pos (by norm_num : (0 : Rat) ≠ -1)]
    rw [if_pos (by norm_num [reportedDifference] : reportedDifference (0 : Rat) (-1) > 0)]
    have h1 : reportedDifference (0 : Rat) (-1) = 1 := by norm_num [reportedDifference]
    have h2 : reportedPercent (0 : Rat) (-1) = -100 := by
      norm_num [reportedPercent, reportedDifference]
    rw [h1, h2]
  · norm_num

/-- Claim C6 amended: for every symbol whose prices differ and whose hold
average price is positive, the emitted line names the larger price first,
shows the magnitude of the difference, and shows a positive percentage equal
to that magnitude divided by holdAvgPrice times 100 (rendered by the code
with two decimal places); for a non-positive holdAvgPrice the printed
percentage can be negative. -/
theorem claim_C6 (s : String) (fair hold : Rat) (h0 : 0 < hold) (hne : fair ≠ hold) :
    ∃ r, compareReport s fair hold = some r ∧
      r.greaterValue = max fair hold ∧
      r.smallerValue = min fair hold ∧
      (hold < fair → r.greaterName = "FairPrice" ∧ r.smallerName = "HoldAvgPrice") ∧
      (fair < hold → r.greaterName = "HoldAvgPrice" ∧ r.smallerName = "FairPrice") ∧
      r.diffShown = |fair - hold| ∧
      r.percentShown = |fair - hold| / hold * 100 ∧
      0 < r.percentShown := by
  have habs : (0 : Rat) < |fair - hold| := abs_pos.mpr (sub_ne_zero.mpr hne)
  rcases lt_or_gt_of_ne hne with hlt | hgt
  · refine ⟨⟨s, "HoldAvgPrice", hold, "FairPrice", fair,
      -reportedDifference fair hold, -reportedPercent fair hold⟩, ?_, ?_, ?_, ?_, ?_, ?_, ?_, ?_⟩
    · unfold compareReport
      rw [if_pos hne]
      rw [if_neg (by simp only [reportedDifference]; linarith : ¬ reportedDifference fair hold > 0)]
    · simp only []
      rw [max_eq_right hlt.le]
    · simp only []
      rw [min_eq_left hlt.le]
    · intro h
      exact absurd h (not_lt.mpr hlt.le)
    · intro _
      exact ⟨rfl, rfl⟩
    · simp only [reportedDifference]
      rw [abs_of_neg (by linarith : fair - hold < 0)]
    · simp only [reportedPercent, reportedDifference]
      rw [abs_of_neg (by linarith : fair - hold < 0)]
      ring
    · simp only [reportedPercent, reportedDifference]
      have hdf : (0 : Rat) < hold - fair := by linarith
      have hpos : (0 : Rat) < (hold - fair) / hold * 100 :=
        mul_pos (div_pos hdf h0) (by norm_num)
      calc (0 : Rat) < (hold - fair) / hold * 100 := hpos
        _ = -((fair - hold) / hold * 100) := by ring
  · refine ⟨⟨s, "FairPrice", fair, "HoldAvgPrice", hold,
      reportedDifference fair hold, reportedPercent fair hold⟩, ?_, ?_, ?_, ?_, ?_, ?_, ?_, ?_⟩
    · unfold compareReport
      rw [if_pos hne]
      rw [if_pos (by simp only [reportedDifference]; linarith : reportedDifference fair hold > 0)]
    · simp only []
      rw [max_eq_left hgt.le]
    · simp only []
      rw [min_eq_right hgt.le]
    · intro _
      exact ⟨rfl, rfl⟩
    · intro h
      exact absurd h (not_lt.mpr hgt.le)
    · simp only [reportedDifference]
      rw [abs_of_pos (by linarith : (0 : Rat) < fair - hold)]
    · simp only [reportedPercent, reportedDifference]
      rw [abs_of_pos (by linarith : (0 : Rat) < fair - hold)]
    · simp only [reportedPercent, reportedDifference]
      have hdf : (0 : Rat) < fair - hold := by linarith
      exact mul_pos (div_pos hdf h0) (by norm_num)

theorem claim_C6_witness :
    (0 : Rat) < 100 ∧ (110 : Rat) ≠ 100 ∧ (90 : Rat) ≠ 100 ∧
    (compareReport "BTC_USDT" 110 100).map OutputLine.diffShown = some 10 ∧
    (compareReport "BTC_USDT" 110 100).map OutputLine.percentShown = some 10 ∧
    (compareReport "BTC_USDT" 110 100).map OutputLine.greaterName = some "FairPrice" ∧
    (compareReport "ETH_USDT" 90 100).map OutputLine.diffShown = some 10 ∧
    (compareReport "ETH_USDT" 90 100).map OutputLine.percentShown = some 10 ∧
    (compareReport "ETH_USDT" 90 100).map OutputLine.greaterName = some "HoldAvgPrice" := by
  obtain ⟨r1, hr1, _, _, hgt1, _, hd1, hp1, _⟩ :=
    claim_C6 "BTC_USDT" 110 100 (by norm_num) (by norm_num)
  obtain ⟨r2, hr2, _, _, _, hlt2, hd2, hp2, _⟩ :=
    claim_C6 "ETH_USDT" 90 100 (by norm_num) (by norm_num)
  have habs1 : |(110 : Rat) - 100| = 10 := by
    rw [abs_of_pos] <;> norm_num
  have habs2 : |(90 : Rat) - 100| = 10 := by
    rw [abs_of_neg] <;> norm_num
  refine ⟨by norm_num, by norm_num, by norm_num, ?_, ?_, ?_, ?_, ?_, ?_⟩
  · rw [hr1]
    simp only [Option.map_some']
    rw [hd1, habs1]
  · rw [hr1]
    simp only [Option.map_some']
    rw [hp1, habs1]
    norm_num
  · rw [hr1]
    simp only [Option.map_some']
    rw [(hgt1 (by norm_num)).1]
  · rw [hr2]
    simp only [Option.map_some']
    rw [hd2, habs2]
  · rw [hr2]
    simp only [Option.map_some']
    rw [hp2, habs2]
    norm_num
  · rw [hr2]
    simp only [Option.map_some']
    rw [(hlt2 (by norm_num)).1]

/-- Claim C7: any failure of the open-positions call (request construction,
transport, body read or decode) produces exactly one diagnostic line, the
run ends there, and no fair-price processing occurs for any symbol: the
output does not depend on the fair-price environment and contains no report
line. -/
theorem claim_C7 (stage1 : CallOutcome (List Position))
    (fair fair2 : Nat → CallOutcome Rat) (h : stage1.isSuccess = false) :
    (∃ msg, runMain stage1 fair = [Event.diag msg]) ∧
    runMain stage1 fair = runMain stage1 fair2 ∧
    ∀ line ∈ runMain stage1 fair, ∀ r, line ≠ Event.report r := by
  cases stage1
  case success ps => simp [CallOutcome.isSuccess] at h
  all_goals
    refine ⟨⟨_, rfl⟩, rfl, ?_⟩
    intro line hl r
    simp only [runMain, List.mem_singleton] at hl
    simp [hl]

theorem claim_C7_witness :
    (∃ msg, runMain (.decodeFail "invalid JSON") (fun _ => .success 0) = [Event.diag msg]) ∧
    runMain (.decodeFail "invalid JSON") (fun _ => .success 0) =
      runMain (.decodeFail "invalid JSON") (fun _ => .success 1) ∧
    ∀ line ∈ runMain (.decodeFail "invalid JSON") (fun _ => .success 0),
      ∀ r, line ≠ Event.report r :=
  claim_C7 (.decodeFail "invalid JSON") (fun _ => .success 0) (fun _ => .success 1) rfl

theorem runStage2_append (fair : Nat → CallOutcome Rat) :
    ∀ (l1 l2 : List Position) (start : Nat),
      runStage2 fair start (l1 ++ l2) =
        runStage2 fair start l1 ++ runStage2 fair (start + l1.length) l2 := by
  intro l1
  induction l1 with
  | nil =>
    intro l2 start
    simp [runStage2]
  | cons p ps ih =>
    intro l2 start
    simp only [List.cons_append, runStage2, List.length_cons, List.append_eq]
    rw [ih l2 (start + 1)]
    have harith : start + 1 + ps.length = start + (ps.length + 1) := by omega
    rw [harith, List.append_assoc]

/-- Claim C8: in the per-position loop, a fair-price call failure for one
position contributes exactly one diagnostic line for that position, the
output already produced for the prior positions is exactly what those
positions alone produce, and the loop still processes every subsequent
position. -/
theorem claim_C8 (fair : Nat → CallOutcome Rat) (l1 l2 : List Position)
    (p : Position) (h : (fair l1.length).isSuccess = false) :
    ∃ msg, queryFairPriceForSymbol (fair l1.length) p.symbol p.holdAvgPrice =
        [Event.diag msg] ∧
      runStage2 fair 0 (l1 ++ p :: l2) =
        runStage2 fair 0 l1 ++ [Event.diag msg] ++ runStage2 fair (l1.length + 1) l2 := by
  cases hf : fair l1.length
  case success v =>
    rw [hf] at h
    simp [CallOutcome.isSuccess] at h
  all_goals
    refine ⟨_, rfl, ?_⟩
    rw [runStage2_append fair l1 (p :: l2) 0, Nat.zero_add]
    simp only [runStage2]
    rw [hf]
    simp [queryFairPriceForSymbol, List.append_assoc]

theorem claim_C8_witness :
    ((fun i => if i = 1 then CallOutcome.sendFail "connection refused"
               else CallOutcome.success (5 : Rat)) 1).isSuccess = false ∧
    ∃ msg, queryFairPriceForSymbol
        ((fun i => if i = 1 then CallOutcome.sendFail "connection refused"
                   else CallOutcome.success (5 : Rat)) 1) "BBB" 4 = [Event.diag msg] ∧
      runStage2 (fun i => if i = 1 then CallOutcome.sendFail "connection refused"
                          else CallOutcome.success (5 : Rat)) 0
          ([⟨"AAA", 3⟩] ++ (⟨"BBB", 4⟩ : Position) :: [⟨"CCC", 6⟩]) =
        runStage2 (fun i => if i = 1 then CallOutcome.sendFail "connection refused"
                            else CallOutcome.success (5 : Rat)) 0 [⟨"AAA", 3⟩] ++
          [Event.diag msg] ++
          runStage2 (fun i => if i = 1 then CallOutcome.sendFail "connection refused"
                              else CallOutcome.success (5 : Rat)) 2 [⟨"CCC", 6⟩] :=
  ⟨rfl, claim_C8 (fun i => if i = 1 then CallOutcome.sendFail "connection refused"
      else CallOutcome.success (5 : Rat)) [⟨"AAA", 3⟩] [⟨"CCC", 6⟩] ⟨"BBB", 4⟩ rfl⟩

/-- Claim C9: both the open-positions request and every fair-price request
carry exactly four headers: ApiKey with the access key, Request-Time with the
timestamp used in signing, Signature with the hex signature computed over
that same timestamp, and Content-Type set to application/json. -/
theorem claim_C9 (ak sk symbol : String) (t : GoTime) :
    (openPositionsRequest ak sk t).headers =
      [("ApiKey", ak), ("Request-Time", requestTimestamp t),
       ("Signature", sign ak sk (requestTimestamp t) (bytesAsString (getRequestParamString []))),
       ("Content-Type", "application/json")] ∧
    (fairPriceRequest ak sk symbol t).headers =
      [("ApiKey", ak), ("Request-Time", requestTimestamp t),
       ("Signature", sign ak sk (requestTimestamp t) ""),
       ("Content-Type", "application/json")] ∧
    bytesAsString (getRequestParamString []) = "" ∧
    (openPositionsRequest ak sk t).headers.length = 4 ∧
    (fairPriceRequest ak sk symbol t).headers.length = 4 :=
  ⟨rfl, rfl, by decide, rfl, rfl⟩
